import Mathlib

/-!
Shallow embedding of the capture/request orchestration core of the
Webcam-OCR repository (src/script.js, configuration in src/gemini-config.js).

JS strings are modelled as `List Char`; timestamps (`Date.now()`) as `ℕ`
milliseconds; JS numbers that carry fractional values (the confidence
heuristic, the continuous-loop dynamic delay) as `ℚ`.  The final
`Math.round(c * 1000) / 1000` step of the confidence heuristic makes the
rational model agree with IEEE-754 evaluation for every value this program
produces, since no intermediate lands near a rounding boundary.
-/

namespace WebcamOCR

/-! ### Generic string utilities (JS built-ins used by the source) -/

/-- `String.prototype.split(sep)` for a one-character separator,
over `List Char`.  `splitOnChar sep s` never returns `[]`. -/
def splitOnChar (sep : Char) : List Char → List (List Char)
  | [] => [[]]
  | c :: rest =>
    if c = sep then [] :: splitOnChar sep rest
    else
      match splitOnChar sep rest with
      | [] => [[c]]
      | l :: ls => (c :: l) :: ls

/-- `Array.prototype.join('\n')` over `List Char` pieces. -/
def joinLines : List (List Char) → List Char
  | [] => []
  | [l] => l
  | l :: ls => l ++ '\n' :: joinLines ls

/-- The WhiteSpace / LineTerminator set trimmed by `String.prototype.trim`
(ASCII part plus NBSP; the program's strings stay in this range). -/
def isJsSpace (c : Char) : Bool :=
  c = ' ' || c = '\t' || c = '\n' || c = '\r' ||
  c = '\x0b' || c = '\x0c' || c.toNat = 0xa0

/-- `String.prototype.trim`. -/
def trimChars (s : List Char) : List Char :=
  ((s.dropWhile isJsSpace).reverse.dropWhile isJsSpace).reverse

/-- ASCII lower-casing, as used by the case-insensitive `/i` regex flag and
`toLowerCase()` on the ASCII strings this program manipulates. -/
def lcChar (c : Char) : Char :=
  if 'A' ≤ c ∧ c ≤ 'Z' then Char.ofNat (c.toNat + 32) else c

/-- `String.prototype.toLowerCase()` (ASCII range). -/
def lowerStr (s : List Char) : List Char := s.map lcChar

/-- `String.prototype.includes(pat)`: substring search. -/
def strIncludes (hay pat : List Char) : Bool :=
  if pat.isPrefixOf hay then true
  else
    match hay with
    | [] => false
    | _ :: t => strIncludes t pat

/-! ### RateGate (src/script.js lines 600-607 and 661-664)

The controller keeps a single field `throttleUntil`.  Reading the gate is
`this.throttleUntil > now` (line 603); tripping it is
`this.throttleUntil = U.now() + 5000` (line 663) — the program always uses
the fixed 5000 ms cooldown, modelled here with the cooldown as an
argument. -/

/-- `trip(now, cooldown)`: sets `throttledUntil = now + cooldown`
unconditionally (line 663, cooldown fixed at 5000 there). -/
def RateGate.trip (now cooldown : ℕ) : ℕ := now + cooldown

/-- `isBlocked(t)`: the guard `this.throttleUntil > now` at line 603. -/
def RateGate.isBlocked (throttledUntil t : ℕ) : Bool := t < throttledUntil

/-- `Math.ceil(d / 1000)` on a nonnegative integer number of
milliseconds (line 604). -/
def remainSecs (d : ℕ) : ℕ := (d + 999) / 1000

/-! ### U.extractBase64 (src/script.js lines 26-30) -/

/-- `U.extractBase64`: split on `','`; exactly two parts required,
otherwise `throw new Error('Invalid image data format')`. -/
def extractBase64 (dataUrl : List Char) : Except (List Char) (List Char) :=
  match splitOnChar ',' dataUrl with
  | [_, p1] => Except.ok p1
  | _ => Except.error ("Invalid image data format".toList)

/-! ### U.confidenceHeuristic (src/script.js lines 31-38) -/

/-- `Math.round` (round half toward +∞), on `ℚ`. -/
def jsRound (q : ℚ) : ℤ := ⌊q + 1 / 2⌋

/-- `Math.round(c * 1000) / 1000`. -/
def round3 (q : ℚ) : ℚ := (jsRound (q * 1000) : ℚ) / 1000

/-- `U.confidenceHeuristic(text, responseMeta)`.  `usage` is the truthiness
of `responseMeta.usage`.  `!text || !text.trim()` collapses to
`trimChars text = []` since the empty string also trims to empty. -/
def confidenceHeuristic (text : List Char) (usage : Bool) : ℚ :=
  if trimChars text = [] then 1 / 10
  else
    let c0 : ℚ := 9 / 10
    let c1 : ℚ :=
      if text.length > 100 then min (c0 + 5 / 100) (98 / 100)
      else if text.length < 10 then max (c0 - 1 / 10) (7 / 10)
      else c0
    let c2 : ℚ := if usage then min (c1 + 2 / 100) (99 / 100) else c1
    round3 c2

/-! ### App.cleanOcrResult (src/script.js lines 685-704)

The source applies `text.replace(pattern, '')` for each of five regex
patterns — the regexes carry no `g` flag, so only the FIRST (leftmost)
match of each pattern is removed — then splits into lines, trims each
line, drops empty lines and rejoins with `'\n'`. -/

/-- Case-insensitive prefix test (the `/i` flag on an ASCII literal). -/
def ciStartsWith : List Char → List Char → Bool
  | [], _ => true
  | _ :: _, [] => false
  | p :: ps, c :: cs => lcChar p = lcChar c && ciStartsWith ps cs

/-- Matcher for a case-insensitive literal regex such as `/@ezlink/i`:
at the current position, match iff the literal is a prefix (length =
literal length). -/
def matchLit (pat s : List Char) : Option ℕ :=
  if ciStartsWith pat s then some pat.length else none

/-- Length of the leading run of ASCII digits. -/
def digitRun : List Char → ℕ
  | [] => 0
  | c :: rest => if '0' ≤ c ∧ c ≤ '9' then digitRun rest + 1 else 0

/-- Matcher for `/AD: \d{1,3}\/\d{1,3}/i` at the current position.
Backtracking over the first `\d{1,3}` collapses to: the full leading
digit run must have length 1..3 and be followed by `'/'` (any shorter
split would put a digit where `'/'` is required); the trailing `\d{1,3}`
is greedy with no continuation, so it takes `min(run, 3) ≥ 1` digits. -/
def matchAD (s : List Char) : Option ℕ :=
  match s with
  | a :: d :: ':' :: ' ' :: rest =>
    if lcChar a = 'a' ∧ lcChar d = 'd' then
      let r := digitRun rest
      if 1 ≤ r ∧ r ≤ 3 then
        match rest.drop r with
        | '/' :: rest2 =>
          let t := min (digitRun rest2) 3
          if 1 ≤ t then some (4 + r + 1 + t) else none
        | _ => none
      else none
    else none
  | _ => none

/-- Leftmost match of a position matcher: returns (start index, length). -/
def findFirst (m : List Char → Option ℕ) : List Char → Option (ℕ × ℕ)
  | [] => (m []).map (fun len => (0, len))
  | c :: rest =>
    match m (c :: rest) with
    | some len => some (0, len)
    | none => (findFirst m rest).map (fun p => (p.1 + 1, p.2))

/-- `String.prototype.replace(regex-without-g, '')`: delete the leftmost
match, if any. -/
def replaceFirst (m : List Char → Option ℕ) (s : List Char) : List Char :=
  match findFirst m s with
  | none => s
  | some (i, len) => s.take i ++ (s.drop i).drop len

/-- The five matchers of `patternsToRemove` (lines 688-694), in source
order. -/
def boilerplateMatchers : List (List Char → Option ℕ) :=
  [ matchLit ("@ezlink".toList),
    matchLit ("Check card balance and reload via".toList),
    matchLit ("Scan QR to download".toList),
    matchLit ("adult".toList),
    matchAD ]

/-- The line-normalisation tail of `cleanOcrResult` (lines 701-703):
split on `'\n'`, trim each line, drop empty lines, rejoin. -/
def normalizeLines (s : List Char) : List Char :=
  joinLines (((splitOnChar '\n' s).map trimChars).filter (fun l => !l.isEmpty))

/-- `App.cleanOcrResult` (lines 685-704). -/
def cleanOcrResult (text : List Char) : List Char :=
  if text = [] then []
  else
    normalizeLines (boilerplateMatchers.foldl (fun acc m => replaceFirst m acc) text)

/-! ### JSON.parse and OCRService.parseTextValue (src/script.js lines 432-440)

`parseTextValue` runs `JSON.parse` on the extracted provider text and
prefers a nested string `text` field.  `JSON.parse` is an ECMAScript
built-in (not repository code); it is embedded below as a recursive-descent
parser of the JSON grammar (ECMA-404): literals, numbers, strings with
escapes, arrays, objects, with the JSON whitespace set and a
rest-must-be-empty check.  Duplicate object keys follow JS semantics
(the last occurrence wins).  Lone `\uXXXX` surrogate escapes, which a JS
string can hold but a Lean `Char` cannot, decode through `Char.ofNat`'s
fallback; no claim depends on them. -/

inductive JVal where
  | null
  | bool (b : Bool)
  | num (token : List Char)
  | str (s : List Char)
  | arr (xs : List JVal)
  | obj (fields : List (List Char × JVal))

def lbrace : Char := Char.ofNat 123

def rbrace : Char := Char.ofNat 125

def isDigitChar (c : Char) : Bool := '0' ≤ c && c ≤ '9'

/-- JSON whitespace: space, tab, LF, CR. -/
def skipWs : List Char → List Char
  | [] => []
  | c :: rest =>
    if c = ' ' ∨ c = '\t' ∨ c = '\n' ∨ c = '\r' then skipWs rest else c :: rest

def hexVal (c : Char) : Option ℕ :=
  if '0' ≤ c ∧ c ≤ '9' then some (c.toNat - '0'.toNat)
  else if 'a' ≤ c ∧ c ≤ 'f' then some (c.toNat - 'a'.toNat + 10)
  else if 'A' ≤ c ∧ c ≤ 'F' then some (c.toNat - 'A'.toNat + 10)
  else none

def hex4 (h1 h2 h3 h4 : Char) : Option ℕ := do
  let a ← hexVal h1
  let b ← hexVal h2
  let c ← hexVal h3
  let d ← hexVal h4
  pure (((a * 16 + b) * 16 + c) * 16 + d)

/-- First pass of the JSON string body grammar, after the opening quote:
decode into a list of UTF-16-style code units, stopping at the closing
quote.  Raw control characters below 0x20 are rejected, as `JSON.parse`
does. -/
def parseStrRaw : List Char → Option (List ℕ × List Char)
  | [] => none
  | c :: rest =>
    if c = '"' then some ([], rest)
    else if c = '\\' then
      match rest with
      | 'u' :: h1 :: h2 :: h3 :: h4 :: r2 =>
        match hex4 h1 h2 h3 h4 with
        | none => none
        | some n => (parseStrRaw r2).map (fun p => (n :: p.1, p.2))
      | e :: r2 =>
        let dec : Option Char :=
          if e = '"' ∨ e = '\\' ∨ e = '/' then some e
          else if e = 'b' then some (Char.ofNat 8)
          else if e = 'f' then some (Char.ofNat 12)
          else if e = 'n' then some '\n'
          else if e = 'r' then some '\r'
          else if e = 't' then some '\t'
          else none
        match dec with
        | some d => (parseStrRaw r2).map (fun p => (d.toNat :: p.1, p.2))
        | none => none
      | [] => none
    else if c.toNat < 32 then none
    else (parseStrRaw rest).map (fun p => (c.toNat :: p.1, p.2))
termination_by s => s.length
decreasing_by all_goals (simp [List.length_cons] <;> omega)

/-- Second pass: combine `\u` surrogate pairs into code points (JS keeps
them as one string element).  Only `\u` escapes can produce values in the
surrogate range, so this only touches escaped input. -/
def combineSurrogates : List ℕ → List Char
  | [] => []
  | n :: rest =>
    if 0xd800 ≤ n ∧ n ≤ 0xdbff then
      match rest with
      | m :: rest2 =>
        if 0xdc00 ≤ m ∧ m ≤ 0xdfff then
          Char.ofNat (0x10000 + (n - 0xd800) * 0x400 + (m - 0xdc00)) :: combineSurrogates rest2
        else Char.ofNat n :: combineSurrogates (m :: rest2)
      | [] => [Char.ofNat n]
    else Char.ofNat n :: combineSurrogates rest

/-- JSON string body, after the opening quote; yields (content, rest after
the closing quote). -/
def parseStrBody (s : List Char) : Option (List Char × List Char) :=
  (parseStrRaw s).map (fun p => (combineSurrogates p.1, p.2))

def takeDigitsSpan : List Char → List Char × List Char
  | [] => ([], [])
  | c :: rest =>
    if isDigitChar c then
      let p := takeDigitsSpan rest
      (c :: p.1, p.2)
    else ([], c :: rest)

/-- Exponent part of a JSON number token (optional). -/
def contExp (acc : List Char) : List Char → Option (List Char × List Char)
  | [] => some (acc, [])
  | c :: r =>
    if c = 'e' ∨ c = 'E' then
      match r with
      | [] => none
      | c2 :: r2 =>
        if c2 = '+' ∨ c2 = '-' then
          match r2 with
          | [] => none
          | c3 :: r3 =>
            if isDigitChar c3 then
              let p := takeDigitsSpan r3
              some (acc ++ c :: c2 :: c3 :: p.1, p.2)
            else none
        else if isDigitChar c2 then
          let p := takeDigitsSpan r2
          some (acc ++ c :: c2 :: p.1, p.2)
        else none
    else some (acc, c :: r)

/-- Fraction part of a JSON number token (optional), then exponent. -/
def contFrac (acc : List Char) : List Char → Option (List Char × List Char)
  | '.' :: r =>
    match r with
    | [] => none
    | c :: r2 =>
      if isDigitChar c then
        let p := takeDigitsSpan r2
        contExp (acc ++ '.' :: c :: p.1) p.2
      else none
  | s => contExp acc s

/-- JSON number token (ECMA-404 grammar); the token is kept as its
characters — the program never uses a parsed number's value. -/
def parseNumberToken (s : List Char) : Option (List Char × List Char) :=
  let signed : List Char × List Char :=
    match s with
    | '-' :: r => (['-'], r)
    | _ => ([], s)
  match signed.2 with
  | [] => none
  | c :: r =>
    if c = '0' then contFrac (signed.1 ++ ['0']) r
    else if isDigitChar c then
      let p := takeDigitsSpan r
      contFrac (signed.1 ++ c :: p.1) p.2
    else none

mutual

/-- JSON value parser; `fuel` bounds recursion depth (the top-level call
supplies `2 * length + 4`, ample since every two fuel units consume at
least one input character). -/
def parseVal : ℕ → List Char → Option (JVal × List Char)
  | 0, _ => none
  | fuel + 1, s =>
    match skipWs s with
    | [] => none
    | c :: rest =>
      if c = 'n' then
        match rest with
        | 'u' :: 'l' :: 'l' :: r => some (.null, r)
        | _ => none
      else if c = 't' then
        match rest with
        | 'r' :: 'u' :: 'e' :: r => some (.bool true, r)
        | _ => none
      else if c = 'f' then
        match rest with
        | 'a' :: 'l' :: 's' :: 'e' :: r => some (.bool false, r)
        | _ => none
      else if c = '"' then
        (parseStrBody rest).map (fun p => (.str p.1, p.2))
      else if c = '[' then
        match skipWs rest with
        | ']' :: r2 => some (.arr [], r2)
        | r2 => (parseElems fuel r2).map (fun p => (.arr p.1, p.2))
      else if c = lbrace then
        match skipWs rest with
        | r2 =>
          if r2.head? = some rbrace then some (.obj [], r2.tail)
          else (parseFields fuel r2).map (fun p => (.obj p.1, p.2))
      else
        (parseNumberToken (c :: rest)).map (fun p => (.num p.1, p.2))

/-- One-or-more comma-separated array elements, through `]`. -/
def parseElems : ℕ → List Char → Option (List JVal × List Char)
  | 0, _ => none
  | fuel + 1, s => do
    let (v, r) ← parseVal fuel s
    match skipWs r with
    | ',' :: r2 => (parseElems fuel r2).map (fun p => (v :: p.1, p.2))
    | ']' :: r2 => some ([v], r2)
    | _ => none

/-- One-or-more comma-separated object members, through the closing
brace. -/
def parseFields : ℕ → List Char → Option (List (List Char × JVal) × List Char)
  | 0, _ => none
  | fuel + 1, s =>
    match skipWs s with
    | '"' :: r => do
      let (k, r2) ← parseStrBody r
      match skipWs r2 with
      | ':' :: r3 => do
        let (v, r4) ← parseVal fuel r3
        match skipWs r4 with
        | ',' :: r5 => (parseFields fuel r5).map (fun p => ((k, v) :: p.1, p.2))
        | c :: r5 =>
          if c = rbrace then some ([(k, v)], r5) else none
        | [] => none
      | _ => none
    | _ => none

end

/-- `JSON.parse`: parse one value, allow trailing whitespace only. -/
def jsonParse (s : List Char) : Option JVal :=
  match parseVal (2 * s.length + 4) s with
  | some (v, rest) => if skipWs rest = [] then some v else none
  | none => none

/-- Truthiness of a `JSON.parse` result (`if (parsed && ...)`): `null`,
`false`, numeric zero and the empty string are falsy. -/
def numTokenIsZero (tok : List Char) : Bool :=
  (tok.takeWhile (fun c => !(c = 'e' || c = 'E'))).all
    (fun c => !isDigitChar c || c = '0')

def jsTruthy : JVal → Bool
  | .null => false
  | .bool b => b
  | .num tok => !numTokenIsZero tok
  | .str s => !s.isEmpty
  | .arr _ => true
  | .obj _ => true

/-- JS property read after `JSON.parse`: later duplicate keys win. -/
def lookupLast (fields : List (List Char × JVal)) (k : List Char) : Option JVal :=
  fields.foldl (fun acc f => if f.1 = k then some f.2 else acc) none

/-- `parsed.text` for a `JSON.parse` result: defined (≠ undefined) only on
objects. -/
def jsPropText : JVal → Option JVal
  | .obj fields => lookupLast fields ("text".toList)
  | _ => none

/-- `OCRService.parseTextValue` (lines 432-440): try `JSON.parse`; if the
result is truthy and its `text` property is a string, return it; on any
parse failure or other shape, return the input unchanged.  (The source's
`typeof value !== 'string'` guard is unreachable at the call site, which
always passes `text || ''`.) -/
def parseTextValue (value : List Char) : List Char :=
  match jsonParse value with
  | some parsed =>
    match (if jsTruthy parsed then jsPropText parsed else none) with
    | some (.str t) => t
    | _ => value
  | none => value

/-- Modelled from the spec: "attempt a JSON parse of the extracted text and
prefer the nested `text` field when present and well-formed, falling back
to the raw string otherwise" — the nested string `text` field of the JSON
object the input parses to, if any. -/
def nestedText (s : List Char) : Option (List Char) :=
  match jsonParse s with
  | some (.obj fields) =>
    match lookupLast fields ("text".toList) with
    | some (.str t) => some t
    | _ => none
  | _ => none

/-! ### OCRService.request retry loop (src/script.js lines 459-493)

The network is an oracle `resp : ℕ → FetchResult` giving the outcome of
the `fetch` on each attempt.  `detail` stands for the already-resolved
`lastError?.error?.message || response.statusText || 'Unknown error'`
string.  `Response.ok` is status 200-299 (the Fetch standard), computed
from the status. -/

/-- Config `rateLimit` (src/gemini-config.js lines 117-121: retryDelay
5000, maxRetries 1, backoffMultiplier 2).  The multiplier is integral in
both shipped configs' semantics at the rounded wait (`Math.round`), so ℕ
waits are exact. -/
structure RetryCfg where
  maxRetries : ℕ
  baseDelay : ℕ
  backoff : ℕ

inductive FetchResult where
  | resp (status : ℕ) (detail : List Char)
  | netError (msg : List Char)
  deriving DecidableEq

inductive ReqOut where
  | success (attempt : ℕ)
  | failMsg (msg : List Char)
  deriving DecidableEq

def respOk (status : ℕ) : Bool := 200 ≤ status && status ≤ 299

def apiErrorMsg (detail : List Char) : List Char :=
  ("API error: ".toList) ++ detail

def networkErrorMsg (m : List Char) : List Char :=
  ("Network error: ".toList) ++ m

/-- The `while (attempt <= maxRetries)` loop of `request` (lines 467-489),
returning the list of backoff waits performed (in ms, in order) and the
outcome.  `fuel` counts the loop iterations still allowed; the canonical
entry `requestCall` supplies `maxRetries + 1`, matching the loop bound.
The fuel-0 case mirrors the dead `API error after retries` throw after
the loop (lines 491-493), which the loop structure never reaches. -/
def requestLoop (cfg : RetryCfg) (resp : ℕ → FetchResult) :
    ℕ → ℕ → List ℕ × ReqOut
  | 0, _ => ([], .failMsg ("API error after retries: Unknown".toList))
  | fuel + 1, attempt =>
    match resp attempt with
    | .netError m => ([], .failMsg (networkErrorMsg m))
    | .resp status detail =>
      if respOk status then ([], .success attempt)
      else if (status = 429 ∨ status = 500) ∧ attempt < cfg.maxRetries then
        let rest := requestLoop cfg resp fuel (attempt + 1)
        (cfg.baseDelay * cfg.backoff ^ attempt :: rest.1, rest.2)
      else ([], .failMsg (apiErrorMsg detail))

/-- `request`'s retry loop from attempt 0. -/
def requestCall (cfg : RetryCfg) (resp : ℕ → FetchResult) : List ℕ × ReqOut :=
  requestLoop cfg resp (cfg.maxRetries + 1) 0

/-! ### CaptureController.captureOnce (src/script.js lines 600-669)

One capture cycle, as a pure function from the pre-state and the
collaborators' responses to the list of observable actions and the new
`throttleUntil`.  `now` is `U.now()` at entry (line 602) and `catchNow`
is the `U.now()` inside the catch block (line 663).  `frame` is what
`captureJpeg` returns (`none` when the camera is inactive); `ocr` is the
outcome of `this.ocr.request` (`Except.error` = the thrown message).
UI bookkeeping with no control-flow effect (token-usage display) is
represented by its own event. -/

structure OcrOk where
  text : List Char
  /-- truthiness of `meta.usage` in `U.confidenceHeuristic` (the provider
  body actually carries `usageMetadata`, so this is `false` in practice). -/
  usage : Bool
  deriving DecidableEq

inductive ErrStatus where
  | apiKeyRequired      -- 'API key required - please set GEMINI_API_KEY'
  | networkError        -- 'Network connection error'
  | serviceUnavailable  -- 'Service temporarily unavailable'
  | ocrFailed           -- 'OCR processing failed'
  deriving DecidableEq

inductive Ev where
  | statusThrottled (remain : ℕ)  -- `Throttled - waiting Ns` warning
  | sleepMs (ms : ℕ)
  | captureFrame
  | showLoading (visible : Bool)
  | hideError
  | ocrRequest
  | updateTokenUsage
  | statusError (e : ErrStatus)
  | statusNoText      -- 'No text detected' warning
  | statusImageBlur   -- 'Image blur' warning
  | addResult (text : List Char) (conf : ℚ)
  | statusOcrCompleted
  deriving DecidableEq

/-- The error-message classification of the catch block (lines 654-658). -/
def classifyError (m : List Char) : ErrStatus :=
  if strIncludes m ("API key".toList) then .apiKeyRequired
  else if strIncludes m ("Network".toList) then .networkError
  else if strIncludes m ("429".toList) || strIncludes m ("500".toList) then .serviceUnavailable
  else .ocrFailed

/-- The catch block (lines 653-665): status report, and the 5-second
RateGate trip iff the message mentions 429 or 500 (lines 661-664). -/
def catchHandler (m : List Char) (catchNow throttleUntil : ℕ) : List Ev × ℕ :=
  ( [Ev.statusError (classifyError m)],
    if strIncludes m ("429".toList) || strIncludes m ("500".toList) then
      RateGate.trip catchNow 5000
    else throttleUntil )

/-- The hardcoded fallback `patterns` list (line 635). -/
def defaultNoTextPatterns : List (List Char) :=
  [ "no text".toList, "no text detected".toList, "no text visible".toList,
    "no readable text".toList, "no text found".toList,
    "no text in the image".toList, "no visible text".toList,
    "image blur".toList, "blurred".toList, "blurry".toList,
    "too blurry".toList, "no text detect and image blur".toList ]

def blurPhrase : List Char := "no text detect and image blur".toList

/-- The `global throttle` block at the top of `captureOnce`
(lines 602-607): report the remaining whole seconds; in Continuous mode
(`waitForResponse`) additionally sleep until unblocked. -/
def throttleEvs (waitForResponse : Bool) (throttleUntil now : ℕ) : List Ev :=
  if RateGate.isBlocked throttleUntil now then
    Ev.statusThrottled (remainSecs (throttleUntil - now)) ::
      (if waitForResponse then [Ev.sleepMs (throttleUntil - now)] else [])
  else []

/-- `CaptureController.captureOnce(waitForResponse)` (lines 600-669).
`cfgNoText` is `window.GeminiConfig.noTextPatterns` (`[]` when absent,
making the code fall back to its hardcoded list, line 633-635). -/
def captureOnce (waitForResponse : Bool) (now catchNow : ℕ)
    (throttleUntil : ℕ) (frame : Option (List Char))
    (ocr : Except (List Char) OcrOk) (cfgNoText : List (List Char)) :
    List Ev × ℕ :=
  let evs0 : List Ev := throttleEvs waitForResponse throttleUntil now
  match frame with
  | none => (evs0, throttleUntil)
  | some dataUrl =>
    let evs1 := evs0 ++ [Ev.captureFrame, Ev.showLoading true, Ev.hideError]
    match extractBase64 dataUrl with
    | .error m =>
      let c := catchHandler m catchNow throttleUntil
      (evs1 ++ c.1 ++ [Ev.showLoading false], c.2)
    | .ok _b64 =>
      let evs2 := evs1 ++ [Ev.ocrRequest]
      match ocr with
      | .error m =>
        let c := catchHandler m catchNow throttleUntil
        (evs2 ++ c.1 ++ [Ev.showLoading false], c.2)
      | .ok r =>
        let evs3 := evs2 ++ [Ev.updateTokenUsage]
        let cleaned := cleanOcrResult r.text
        let lower := lowerStr (trimChars cleaned)
        let pats := if cfgNoText.isEmpty then defaultNoTextPatterns else cfgNoText
        let isNoText := lower.isEmpty || pats.any (fun p => strIncludes lower (lowerStr p))
        if isNoText then
          let ev := if lower = blurPhrase then Ev.statusImageBlur else Ev.statusNoText
          (evs3 ++ [ev, Ev.showLoading false], throttleUntil)
        else
          (evs3 ++ [Ev.addResult cleaned (confidenceHeuristic cleaned r.usage),
                    Ev.statusOcrCompleted, Ev.showLoading false], throttleUntil)

/-! ### CaptureController.runAsyncLoop, one iteration (src/script.js
lines 541-583)

Every iteration awaits `captureOnce(true)`.  `captureOnce` catches OCR
errors internally (lines 653-668) and returns normally, so the loop's own
catch runs only for exceptions thrown outside `captureOnce`'s inner try
(e.g. from `captureJpeg`); a normal return always resets
`consecutiveErrors` to 0 (line 556). -/

deriving instance DecidableEq for Except

structure CycleRun where
  now : ℕ
  catchNow : ℕ
  frame : Option (List Char)
  ocr : Except (List Char) OcrOk
  cfgNoText : List (List Char)
  /-- `Date.now() - this.lastCaptureTime` after the awaited cycle. -/
  processingTime : ℕ
  deriving DecidableEq

inductive LoopInput where
  /-- `captureOnce` runs and returns normally (all recognition outcomes,
  success or failure, land here). -/
  | run (r : CycleRun)
  /-- an exception escapes `captureOnce` (thrown before its inner try). -/
  | escape
  deriving DecidableEq

/-- `Math.max(1000, processingTime * 0.1)` (line 560). -/
def dynamicDelay (processingTime : ℕ) : ℚ :=
  max 1000 ((processingTime : ℚ) / 10)

/-- One iteration of the `while` body (lines 552-577): returns the new
`throttleUntil`, the new `consecutiveErrors`, and the pause (ms) before
the next iteration. -/
def asyncStep (throttleUntil consecutiveErrors : ℕ) :
    LoopInput → ℕ × ℕ × ℚ
  | .run r =>
    let c := captureOnce true r.now r.catchNow throttleUntil r.frame r.ocr r.cfgNoText
    (c.2, 0, dynamicDelay r.processingTime)
  | .escape =>
    let c' := consecutiveErrors + 1
    if 3 ≤ c' then (throttleUntil, 0, 5000)
    else (throttleUntil, c', (1000 * c' : ℕ))

/-! ## Supporting lemmas -/

theorem splitOnChar_ne_nil (sep : Char) (s : List Char) : splitOnChar sep s ≠ [] := by
  induction s with
  | nil => simp [splitOnChar]
  | cons c rest ih =>
    simp only [splitOnChar]
    split
    · simp
    · split
      · simp
      · simp

theorem splitOnChar_append (sep : Char) (a b : List Char) (h : sep ∉ a)
    (hd : List Char) (tl : List (List Char)) (hb : splitOnChar sep b = hd :: tl) :
    splitOnChar sep (a ++ b) = (a ++ hd) :: tl := by
  induction a with
  | nil => simpa using hb
  | cons c a' ih =>
    have hc : ¬(c = sep) := fun e => h (by simp [e])
    have h' : sep ∉ a' := fun m => h (List.mem_cons_of_mem _ m)
    simp only [List.cons_append, splitOnChar, if_neg hc]
    have ih' : splitOnChar sep (a'.append b) = (a' ++ hd) :: tl := ih h'
    rw [ih']

theorem splitOnChar_of_not_mem (sep : Char) (l : List Char) (h : sep ∉ l) :
    splitOnChar sep l = [l] := by
  have hb : splitOnChar sep ([] : List Char) = [] :: [] := rfl
  simpa using splitOnChar_append sep l [] h [] [] hb

theorem splitOnChar_length (sep : Char) (s : List Char) :
    (splitOnChar sep s).length = s.count sep + 1 := by
  induction s with
  | nil => simp [splitOnChar]
  | cons c rest ih =>
    simp only [splitOnChar]
    by_cases hc : c = sep
    · simp [hc, List.count_cons, ih]
    · cases hsp : splitOnChar sep rest with
      | nil => exact absurd hsp (splitOnChar_ne_nil sep rest)
      | cons l ls =>
        rw [hsp] at ih
        have hbeq : (c == sep) = false := by simpa using hc
        simp [List.count_cons, hbeq, hc] at ih ⊢
        omega

theorem not_mem_splitOnChar (sep : Char) (s : List Char) :
    ∀ l ∈ splitOnChar sep s, sep ∉ l := by
  induction s with
  | nil => intro l hl; simp [splitOnChar] at hl; simp [hl]
  | cons c rest ih =>
    intro l hl
    simp only [splitOnChar] at hl
    by_cases hc : c = sep
    · rw [if_pos hc] at hl
      rcases List.mem_cons.mp hl with h1 | h2
      · simp [h1]
      · exact ih l h2
    · rw [if_neg hc] at hl
      cases hsp : splitOnChar sep rest with
      | nil => exact absurd hsp (splitOnChar_ne_nil sep rest)
      | cons p ps =>
        rw [hsp] at hl
        rcases List.mem_cons.mp hl with h1 | h2
        · subst h1
          intro hm
          rcases List.mem_cons.mp hm with h3 | h4
          · exact hc h3.symm
          · exact ih p (by simp [hsp]) h4
        · exact ih l (by simp [hsp, h2])

theorem joinLines_cons_cons (l l2 : List Char) (ls : List (List Char)) :
    joinLines (l :: l2 :: ls) = l ++ '\n' :: joinLines (l2 :: ls) := rfl

theorem splitOnChar_joinLines (L : List (List Char))
    (hnl : ∀ l ∈ L, '\n' ∉ l) (hL : L ≠ []) :
    splitOnChar '\n' (joinLines L) = L := by
  induction L with
  | nil => exact absurd rfl hL
  | cons l ls ih =>
    cases ls with
    | nil =>
      simpa [joinLines] using splitOnChar_of_not_mem '\n' l (hnl l (by simp))
    | cons l2 ls2 =>
      have h2 : splitOnChar '\n' (joinLines (l2 :: ls2)) = l2 :: ls2 :=
        ih (fun x hx => hnl x (by simp [hx])) (by simp)
      have h3 : splitOnChar '\n' ('\n' :: joinLines (l2 :: ls2)) = [] :: l2 :: ls2 := by
        simp [splitOnChar, h2]
      have h4 := splitOnChar_append '\n' l ('\n' :: joinLines (l2 :: ls2))
        (hnl l (by simp)) [] (l2 :: ls2) h3
      simpa [joinLines_cons_cons] using h4

theorem list_map_self {α : Type} (f : α → α) (l : List α) (h : ∀ x ∈ l, f x = x) :
    l.map f = l := by
  induction l with
  | nil => rfl
  | cons a t ih =>
    simp only [List.map_cons, h a (by simp), ih (fun x hx => h x (by simp [hx]))]

theorem dropWhile_head_not (p : Char → Bool) (l : List Char) :
    ∀ c, (l.dropWhile p).head? = some c → p c = false := by
  induction l with
  | nil => simp [List.dropWhile]
  | cons a t ih =>
    intro c h
    rw [List.dropWhile_cons] at h
    by_cases hp : p a
    · rw [if_pos (by simpa using hp)] at h
      exact ih c h
    · rw [if_neg (by simpa using hp)] at h
      simp only [List.head?_cons, Option.some.injEq] at h
      subst h
      simpa using hp

theorem dropWhile_of_head_not (p : Char → Bool) (l : List Char)
    (h : ∀ c, l.head? = some c → p c = false) : l.dropWhile p = l := by
  cases l with
  | nil => rfl
  | cons a t =>
    rw [List.dropWhile_cons, if_neg]
    simp [h a rfl]

theorem dropWhile_idem (p : Char → Bool) (l : List Char) :
    (l.dropWhile p).dropWhile p = l.dropWhile p :=
  dropWhile_of_head_not p _ (dropWhile_head_not p l)

theorem getLast?_of_suffix {l₁ l₂ : List Char} (h : l₁ <:+ l₂) (hne : l₁ ≠ []) :
    l₁.getLast? = l₂.getLast? := by
  obtain ⟨t, rfl⟩ := h
  rw [List.getLast?_append]
  cases hl : l₁.getLast? with
  | none => exact absurd (List.getLast?_eq_none_iff.mp hl) hne
  | some c => rfl

theorem trimChars_idem (s : List Char) : trimChars (trimChars s) = trimChars s := by
  unfold trimChars
  set p := isJsSpace with hp
  set a := s.dropWhile p with ha
  set b := a.reverse.dropWhile p with hb
  by_cases hbe : b = []
  · simp [hbe]
  · have hhead : ∀ c, b.reverse.head? = some c → p c = false := by
      intro c hc
      rw [List.head?_reverse] at hc
      have h1 : b.getLast? = a.reverse.getLast? :=
        getLast?_of_suffix (hb ▸ List.dropWhile_suffix p) hbe
      rw [h1, List.getLast?_reverse] at hc
      exact dropWhile_head_not p s c (ha ▸ hc)
    rw [dropWhile_of_head_not p b.reverse hhead, List.reverse_reverse,
      hb, dropWhile_idem]

theorem mem_trimChars {c : Char} {s : List Char} (h : c ∈ trimChars s) : c ∈ s := by
  unfold trimChars at h
  rw [List.mem_reverse] at h
  have h2 := (List.dropWhile_sublist _).subset h
  rw [List.mem_reverse] at h2
  exact (List.dropWhile_sublist _).subset h2

theorem trimChars_nil : trimChars [] = [] := rfl

/-- `normalizeLines` maps an already-normalised join to itself. -/
theorem normalizeLines_joinLines (L : List (List Char))
    (h1 : ∀ l ∈ L, trimChars l = l) (h2 : ∀ l ∈ L, l ≠ [])
    (h3 : ∀ l ∈ L, '\n' ∉ l) :
    normalizeLines (joinLines L) = joinLines L := by
  cases L with
  | nil => rfl
  | cons l ls =>
    rw [normalizeLines, splitOnChar_joinLines _ h3 (by simp)]
    rw [list_map_self trimChars _ h1]
    rw [List.filter_eq_self.mpr (fun x hx => by
      simp only [Bool.not_eq_true']
      simpa [List.isEmpty_iff] using h2 x hx)]

theorem normalizeLines_idem (s : List Char) :
    normalizeLines (normalizeLines s) = normalizeLines s := by
  apply normalizeLines_joinLines
  · intro l hl
    rcases List.mem_filter.mp hl with ⟨hm, _⟩
    rcases List.mem_map.mp hm with ⟨o, _, rfl⟩
    exact trimChars_idem o
  · intro l hl
    rcases List.mem_filter.mp hl with ⟨_, hf⟩
    simpa [List.isEmpty_iff] using hf
  · intro l hl
    rcases List.mem_filter.mp hl with ⟨hm, _⟩
    rcases List.mem_map.mp hm with ⟨o, ho, rfl⟩
    intro hc
    exact not_mem_splitOnChar '\n' s o ho (mem_trimChars hc)

theorem jsRound_intCast (n : ℤ) : jsRound (n : ℚ) = n := by
  unfold jsRound
  rw [Int.floor_eq_iff]
  constructor
  · linarith
  · linarith

theorem round3_of_eq_intCast (q : ℚ) (n : ℤ) (h : q * 1000 = (n : ℚ)) :
    round3 q = (n : ℚ) / 1000 := by
  unfold round3
  rw [h, jsRound_intCast]

/-! ## Claim theorems -/

/-- C1: for every cooldown `c ≥ 0` and query time `t`, after the rate gate
is tripped at time `now` (setting `throttledUntil = now + c`; the program
fixes `c = 5000` ms), the gate reports blocked for every `t` with
`now ≤ t < now + c` and not blocked for every `t ≥ now + c`. -/
theorem rateGate_trip_blocked_iff (c now t : ℕ) :
    (now ≤ t → t < now + c → RateGate.isBlocked (RateGate.trip now c) t = true) ∧
    (now + c ≤ t → RateGate.isBlocked (RateGate.trip now c) t = false) := by
  unfold RateGate.isBlocked RateGate.trip
  constructor
  · intro _ h2
    simpa using h2
  · intro h
    simpa using Nat.not_lt.mpr h

/-- Witness for C1 at `now = 100`, `c = 5000`: blocked at 100 and 5099,
unblocked at 5100. -/
theorem rateGate_trip_blocked_iff_witness :
    RateGate.isBlocked (RateGate.trip 100 5000) 100 = true ∧
    RateGate.isBlocked (RateGate.trip 100 5000) 5099 = true ∧
    RateGate.isBlocked (RateGate.trip 100 5000) 5100 = false :=
  ⟨(rateGate_trip_blocked_iff 5000 100 100).1 (by decide) (by decide),
   (rateGate_trip_blocked_iff 5000 100 5099).1 (by decide) (by decide),
   (rateGate_trip_blocked_iff 5000 100 5100).2 (by decide)⟩

/-- C8: the confidence heuristic returns 0.1 on empty or whitespace-only
text; otherwise it starts from base 0.9, becomes `min(base+0.05, 0.98)`
(= 0.95) for length > 100, `max(base-0.1, 0.7)` (= 0.8) for length < 10,
gains +0.02 capped at 0.99 when usage metadata is present, and is rounded
to 3 decimals; `confidence("") = 0.1`, and a 150-character non-blank text
with absent metadata scores in (0.9, 0.99]. -/
theorem confidenceHeuristic_spec :
    (∀ (t : List Char) (u : Bool), trimChars t = [] →
      confidenceHeuristic t u = 1 / 10) ∧
    (∀ u : Bool, confidenceHeuristic [] u = 1 / 10) ∧
    (∀ (t : List Char) (u : Bool), trimChars t ≠ [] →
      confidenceHeuristic t u =
        if t.length > 100 then (if u then 97 / 100 else 95 / 100)
        else if t.length < 10 then (if u then 82 / 100 else 80 / 100)
        else (if u then 92 / 100 else 90 / 100)) ∧
    (∀ t : List Char, t.length = 150 → trimChars t ≠ [] →
      9 / 10 < confidenceHeuristic t false ∧
        confidenceHeuristic t false ≤ 99 / 100) := by
  have h1 : ∀ (t : List Char) (u : Bool), trimChars t = [] →
      confidenceHeuristic t u = 1 / 10 := by
    intro t u h
    unfold confidenceHeuristic
    rw [if_pos h]
  have h3 : ∀ (t : List Char) (u : Bool), trimChars t ≠ [] →
      confidenceHeuristic t u =
        if t.length > 100 then (if u then 97 / 100 else 95 / 100)
        else if t.length < 10 then (if u then 82 / 100 else 80 / 100)
        else (if u then 92 / 100 else 90 / 100) := by
    intro t u h
    unfold confidenceHeuristic
    rw [if_neg h]
    dsimp only
    split_ifs
    · rw [round3_of_eq_intCast _ 970 (by norm_num [min_def, max_def])]
      norm_num
    · rw [round3_of_eq_intCast _ 820 (by norm_num [min_def, max_def])]
      norm_num
    · rw [round3_of_eq_intCast _ 920 (by norm_num [min_def, max_def])]
      norm_num
    · rw [round3_of_eq_intCast _ 950 (by norm_num [min_def, max_def])]
      norm_num
    · rw [round3_of_eq_intCast _ 800 (by norm_num [min_def, max_def])]
      norm_num
    · rw [round3_of_eq_intCast _ 900 (by norm_num [min_def, max_def])]
      norm_num
  refine ⟨h1, fun u => h1 [] u rfl, h3, ?_⟩
  intro t h150 hne
  rw [h3 t false hne, if_pos (by omega : t.length > 100)]
  norm_num

/-- Witness for C8 on a space, the empty string and a 150-character
text. -/
theorem confidenceHeuristic_spec_witness :
    confidenceHeuristic (" ".toList) false = 1 / 10 ∧
    confidenceHeuristic [] true = 1 / 10 ∧
    confidenceHeuristic (List.replicate 150 'a') false = 95 / 100 ∧
    (9 / 10 < confidenceHeuristic (List.replicate 150 'a') false ∧
      confidenceHeuristic (List.replicate 150 'a') false ≤ 99 / 100) := by
  have h := confidenceHeuristic_spec
  refine ⟨h.1 _ false (by decide), h.2.1 true, ?_,
    h.2.2.2 _ (by simp) (by decide)⟩
  rw [h.2.2.1 _ false (by decide)]
  norm_num

theorem mem_throttleEvs {x : Ev} {w : Bool} {tu now : ℕ}
    (h : x ∈ throttleEvs w tu now) :
    x = Ev.statusThrottled (remainSecs (tu - now)) ∨ x = Ev.sleepMs (tu - now) := by
  unfold throttleEvs at h
  split at h
  · rcases List.mem_cons.mp h with h1 | h2
    · exact Or.inl h1
    · right
      split at h2
      · simpa using h2
      · simp at h2
  · simp at h

/-- C10: base64 extraction returns the substring after the comma when the
data URL contains exactly one comma, and throws `Invalid image data
format` for zero or several commas; a cycle whose frame fails extraction
reports an error status (`OCR processing failed`), issues no recognition
request and leaves the gate untouched. -/
theorem extractBase64_spec :
    (∀ a b : List Char, ',' ∉ a → ',' ∉ b →
      extractBase64 (a ++ ',' :: b) = Except.ok b) ∧
    (∀ s : List Char, s.count ',' ≠ 1 →
      extractBase64 s = Except.error ("Invalid image data format".toList)) ∧
    (∀ (wait : Bool) (now catchNow tu : ℕ) (d : List Char)
        (ocr : Except (List Char) OcrOk) (pats : List (List Char)),
      d.count ',' ≠ 1 →
      Ev.statusError ErrStatus.ocrFailed ∈
          (captureOnce wait now catchNow tu (some d) ocr pats).1 ∧
        Ev.ocrRequest ∉ (captureOnce wait now catchNow tu (some d) ocr pats).1 ∧
        (captureOnce wait now catchNow tu (some d) ocr pats).2 = tu) := by
  have part2 : ∀ s : List Char, s.count ',' ≠ 1 →
      extractBase64 s = Except.error ("Invalid image data format".toList) := by
    intro s h
    have hl := splitOnChar_length ',' s
    unfold extractBase64
    cases hsp : splitOnChar ',' s with
    | nil => rfl
    | cons a t =>
      cases t with
      | nil => rfl
      | cons b t2 =>
        cases t2 with
        | nil =>
          rw [hsp] at hl
          simp at hl
          omega
        | cons c t3 => rfl
  refine ⟨?_, part2, ?_⟩
  · intro a b ha hb
    have h1 : splitOnChar ',' b = [b] := splitOnChar_of_not_mem ',' b hb
    have h2 : splitOnChar ',' (',' :: b) = [] :: [b] := by
      simp [splitOnChar, h1]
    have h3 := splitOnChar_append ',' a (',' :: b) ha [] [b] h2
    simp only [List.append_nil] at h3
    unfold extractBase64
    rw [h3]
  · intro wait now catchNow tu d ocr pats h
    have he := part2 d h
    have hcat : classifyError ("Invalid image data format".toList) =
        ErrStatus.ocrFailed := by decide
    have h429 : (strIncludes ("Invalid image data format".toList) ("429".toList) ||
        strIncludes ("Invalid image data format".toList) ("500".toList)) = false := by
      decide
    have hch : catchHandler ("Invalid image data format".toList) catchNow tu =
        ([Ev.statusError ErrStatus.ocrFailed], tu) := by
      unfold catchHandler
      rw [hcat, h429]
      simp
    simp only [captureOnce, he, hch]
    refine ⟨by simp, ?_, trivial⟩
    intro hmem
    simp at hmem
    rcases mem_throttleEvs hmem with h3 | h3 <;> simp at h3

/-- Witness for C10 on the data URL `data:image/jpeg;base64,AAAA` (one
comma) and the comma-free string `nocomma`. -/
theorem extractBase64_spec_witness :
    extractBase64 ("data:image/jpeg;base64,AAAA".toList) =
      Except.ok ("AAAA".toList) ∧
    extractBase64 ("nocomma".toList) =
      Except.error ("Invalid image data format".toList) ∧
    Ev.statusError ErrStatus.ocrFailed ∈
      (captureOnce false 0 0 0 (some ("nocomma".toList))
        (Except.ok { text := [], usage := false }) []).1 ∧
    Ev.ocrRequest ∉
      (captureOnce false 0 0 0 (some ("nocomma".toList))
        (Except.ok { text := [], usage := false }) []).1 := by
  have h := extractBase64_spec
  have h1 := h.1 ("data:image/jpeg;base64".toList) ("AAAA".toList)
    (by decide) (by decide)
  have h2 := h.2.1 ("nocomma".toList) (by decide)
  have h3 := h.2.2 false 0 0 0 ("nocomma".toList)
    (Except.ok { text := [], usage := false }) [] (by decide)
  exact ⟨by simpa using h1, h2, h3.1, h3.2.1⟩

/-- C7 counterexample: on the spec's scenario input, `clean` does not
return `HELLO WORLD` — the configured pattern `/@ezlink/i` removes only
the literal `@ezlink`, not the rest of the line. -/
theorem clean_ezlink_scenario_cex :
    cleanOcrResult ("  @ezlink card balance\nHELLO WORLD\n".toList) ≠
      "HELLO WORLD".toList := by
  decide

/-- C7 (amended): on the scenario input, `clean` removes only the literal
`@ezlink` and returns `card balance\nHELLO WORLD`. -/
theorem clean_ezlink_scenario_value :
    cleanOcrResult ("  @ezlink card balance\nHELLO WORLD\n".toList) =
      "card balance\nHELLO WORLD".toList := by
  decide

/-- C6 counterexample: `clean` is not idempotent.  Each boilerplate regex
carries no `g` flag, so only the first occurrence is removed per pass:
`clean("@ezlink@ezlink X") = "@ezlink X"` but a second pass gives `"X"`. -/
theorem clean_not_idempotent_cex :
    cleanOcrResult (cleanOcrResult ("@ezlink@ezlink X".toList)) ≠
      cleanOcrResult ("@ezlink@ezlink X".toList) := by
  decide

theorem foldl_replaceFirst_id (ms : List (List Char → Option ℕ)) (s : List Char)
    (h : ∀ m ∈ ms, findFirst m s = none) :
    ms.foldl (fun acc m => replaceFirst m acc) s = s := by
  induction ms with
  | nil => rfl
  | cons m rest ih =>
    rw [List.foldl_cons]
    have h1 : replaceFirst m s = s := by
      unfold replaceFirst
      rw [h m (by simp)]
    rw [h1]
    exact ih (fun m' hm' => h m' (by simp [hm']))

theorem cleanOcrResult_of_ne_nil (y : List Char) (hy : y ≠ []) :
    cleanOcrResult y =
      normalizeLines (boilerplateMatchers.foldl (fun acc m => replaceFirst m acc) y) := by
  rw [cleanOcrResult, if_neg hy]

/-- C6 (amended): `clean` is idempotent on every input whose cleaned form
matches none of the boilerplate patterns; in general it is not, because
each pattern regex lacks the `g` flag and a second pass can remove a
further occurrence. -/
theorem clean_idem_of_no_match (x : List Char)
    (h : ∀ m ∈ boilerplateMatchers, findFirst m (cleanOcrResult x) = none) :
    cleanOcrResult (cleanOcrResult x) = cleanOcrResult x := by
  by_cases hy : cleanOcrResult x = []
  · rw [hy]
    rfl
  · have hx : x ≠ [] := by
      intro e
      rw [e] at hy
      exact hy rfl
    rw [cleanOcrResult_of_ne_nil _ hy, foldl_replaceFirst_id _ _ h,
      cleanOcrResult_of_ne_nil _ hx]
    exact normalizeLines_idem _

/-- Witness for C6 on `Hello\n World `, whose cleaned form
`Hello\nWorld` matches no boilerplate pattern. -/
theorem clean_idem_of_no_match_witness :
    (∀ m ∈ boilerplateMatchers,
      findFirst m (cleanOcrResult ("Hello\n World ".toList)) = none) ∧
    cleanOcrResult (cleanOcrResult ("Hello\n World ".toList)) =
      cleanOcrResult ("Hello\n World ".toList) :=
  ⟨by decide, clean_idem_of_no_match _ (by decide)⟩

/-- C9: the client's text unwrapping returns the nested string `text`
field when the input parses as JSON to a truthy value carrying one, and
returns the input unchanged for every other input (not JSON, or JSON
without a string `text` field). -/
theorem parseTextValue_spec (s : List Char) :
    parseTextValue s = (nestedText s).getD s := by
  unfold parseTextValue nestedText
  cases hp : jsonParse s with
  | none => rfl
  | some v =>
    cases v with
    | null => rfl
    | bool b => cases b <;> rfl
    | num tok => simp [jsPropText, ite_self]
    | str t => simp [jsPropText, ite_self]
    | arr xs => rfl
    | obj fields =>
      show (match lookupLast fields ("text".toList) with
        | some (JVal.str t) => t
        | _ => s) =
        (match lookupLast fields ("text".toList) with
          | some (JVal.str t) => some t
          | _ => none).getD s
      cases lookupLast fields ("text".toList) with
      | none => rfl
      | some w => cases w <;> rfl

theorem captureOnce_shape (w : Bool) (now catchNow tu : ℕ) (d : List Char)
    (ocr : Except (List Char) OcrOk) (pats : List (List Char)) :
    ∃ tailEvs : List Ev,
      (captureOnce w now catchNow tu (some d) ocr pats).1 =
        throttleEvs w tu now ++
          Ev.captureFrame :: Ev.showLoading true :: Ev.hideError :: tailEvs ∧
      (∀ ms : ℕ, Ev.sleepMs ms ∉ tailEvs) ∧
      (∀ b64, extractBase64 d = Except.ok b64 →
        tailEvs.head? = some Ev.ocrRequest) := by
  unfold captureOnce
  dsimp only
  cases hex : extractBase64 d with
  | error m =>
    dsimp only
    refine ⟨(catchHandler m catchNow tu).1 ++ [Ev.showLoading false], ?_, ?_, ?_⟩
    · simp [catchHandler]
    · intro ms hm
      simp [catchHandler] at hm
    · intro b64 hb64
      exact Except.noConfusion hb64
  | ok b64 =>
    cases ocr with
    | error m =>
      dsimp only
      refine ⟨Ev.ocrRequest ::
        ((catchHandler m catchNow tu).1 ++ [Ev.showLoading false]), ?_, ?_,
        fun _ _ => rfl⟩
      · simp [catchHandler]
      · intro ms hm
        simp [catchHandler] at hm
    | ok r =>
      dsimp only
      split <;> split
      all_goals
        first
        | (refine ⟨[Ev.ocrRequest, Ev.updateTokenUsage,
              (if lowerStr (trimChars (cleanOcrResult r.text)) = blurPhrase then
                Ev.statusImageBlur else Ev.statusNoText),
              Ev.showLoading false], ?_, ?_, fun _ _ => rfl⟩
           · simp
           · intro ms hm
             simp only [List.mem_cons, List.not_mem_nil, or_false] at hm
             rcases hm with h | h | h | h
             · cases h
             · cases h
             · split at h <;> cases h
             · cases h)
        | (refine ⟨[Ev.ocrRequest, Ev.updateTokenUsage,
              Ev.addResult (cleanOcrResult r.text)
                (confidenceHeuristic (cleanOcrResult r.text) r.usage),
              Ev.statusOcrCompleted, Ev.showLoading false], ?_, ?_,
              fun _ _ => rfl⟩
           · simp
           · intro ms hm
             simp at hm)

/-- C2 counterexample: a blocked Interval-mode tick (`throttleUntil` 3000
at `now` 0) is NOT skipped — the cycle still captures a frame and issues
the recognition request. -/
theorem interval_blocked_tick_not_skipped_cex :
    Ev.captureFrame ∈ (captureOnce false 0 0 3000
        (some ("data:image/jpeg;base64,AAAA".toList))
        (Except.ok { text := "HI THERE".toList, usage := false }) []).1 ∧
    Ev.ocrRequest ∈ (captureOnce false 0 0 3000
        (some ("data:image/jpeg;base64,AAAA".toList))
        (Except.ok { text := "HI THERE".toList, usage := false }) []).1 := by
  exact ⟨by decide, by decide⟩

/-- C2 (amended): at a blocked Interval-mode tick the cycle reports the
throttled status with the remaining whole seconds first, performs no
blocking sleep, but is not skipped: the frame is still captured and, when
base64 extraction succeeds, the recognition request is still issued. -/
theorem interval_blocked_tick_proceeds
    (now catchNow tu : ℕ) (d : List Char) (ocr : Except (List Char) OcrOk)
    (pats : List (List Char)) (hb : RateGate.isBlocked tu now = true) :
    ((captureOnce false now catchNow tu (some d) ocr pats).1.head? =
      some (Ev.statusThrottled (remainSecs (tu - now)))) ∧
    (∀ ms : ℕ, Ev.sleepMs ms ∉
      (captureOnce false now catchNow tu (some d) ocr pats).1) ∧
    Ev.captureFrame ∈ (captureOnce false now catchNow tu (some d) ocr pats).1 ∧
    (∀ b64, extractBase64 d = Except.ok b64 →
      Ev.ocrRequest ∈ (captureOnce false now catchNow tu (some d) ocr pats).1) := by
  obtain ⟨tailEvs, heq, hnosleep, hhead⟩ :=
    captureOnce_shape false now catchNow tu d ocr pats
  have hevs0 : throttleEvs false tu now =
      [Ev.statusThrottled (remainSecs (tu - now))] := by
    simp [throttleEvs, hb]
  rw [heq, hevs0]
  refine ⟨rfl, ?_, by simp, ?_⟩
  · intro ms hm
    simp at hm
    exact hnosleep ms hm
  · intro b64 hb64
    have hh := hhead b64 hb64
    have hmem : Ev.ocrRequest ∈ tailEvs := by
      cases tailEvs with
      | nil => cases hh
      | cons a t =>
        simp only [List.head?_cons, Option.some.injEq] at hh
        simp [hh]
    simp [hmem]

/-- On a non-OK response whose status is neither 429 nor exactly 500, the
retry loop fails at once for that attempt: no wait, no further attempt. -/
theorem requestLoop_fail_now (cfg : RetryCfg) (resp : ℕ → FetchResult)
    (fuel attempt status : ℕ) (detail : List Char)
    (hr : resp attempt = FetchResult.resp status detail)
    (hok : respOk status = false) (h1 : status ≠ 429) (h2 : status ≠ 500) :
    requestLoop cfg resp (fuel + 1) attempt =
      ([], ReqOut.failMsg (apiErrorMsg detail)) := by
  simp only [requestLoop]
  rw [hr]
  dsimp only
  rw [if_neg (by simp [hok]), if_neg (by
    rintro ⟨hs, -⟩
    rcases hs with h | h
    · exact h1 h
    · exact h2 h)]

/-- C3 counterexample: a 503 response on attempt 0, with the retry
ceiling (maxRetries 1 from the shipped config) not yet reached, fails
immediately with no backoff wait and no retry — the second attempt, which
would have succeeded, is never made. -/
theorem transient_503_no_retry_cex :
    requestCall { maxRetries := 1, baseDelay := 5000, backoff := 2 }
      (fun a => if a = 0 then FetchResult.resp 503 ("Service Unavailable".toList)
        else FetchResult.resp 200 []) =
      ([], ReqOut.failMsg ("API error: Service Unavailable".toList)) := by
  decide

/-- C3 (amended): on a non-OK response the loop retries exactly when the
status is 429 or exactly 500 and the attempt count is below the retry
ceiling, waiting `baseDelay * backoffMultiplier ^ attempt` ms and
re-entering at `attempt + 1`; any other status — in particular any 5xx
other than 500 — fails immediately for that attempt. -/
theorem request_retry_only_429_or_500 (cfg : RetryCfg)
    (resp : ℕ → FetchResult) (fuel attempt status : ℕ) (detail : List Char)
    (hr : resp attempt = FetchResult.resp status detail)
    (hok : respOk status = false) :
    ((status = 429 ∨ status = 500) → attempt < cfg.maxRetries →
      requestLoop cfg resp (fuel + 1) attempt =
        (cfg.baseDelay * cfg.backoff ^ attempt ::
            (requestLoop cfg resp fuel (attempt + 1)).1,
          (requestLoop cfg resp fuel (attempt + 1)).2)) ∧
    (status ≠ 429 → status ≠ 500 →
      requestLoop cfg resp (fuel + 1) attempt =
        ([], ReqOut.failMsg (apiErrorMsg detail))) := by
  constructor
  · intro hs ha
    simp only [requestLoop]
    rw [hr]
    dsimp only
    rw [if_neg (by simp [hok]), if_pos ⟨hs, ha⟩]
  · intro h1 h2
    exact requestLoop_fail_now cfg resp fuel attempt status detail hr hok h1 h2

/-- Witness for C3 on a 429 first attempt under the shipped config
(retry taken) and on a 503 first attempt (no retry). -/
theorem request_retry_only_429_or_500_witness :
    requestLoop { maxRetries := 1, baseDelay := 5000, backoff := 2 }
        (fun _ => FetchResult.resp 429 ("rate".toList)) (1 + 1) 0 =
      (5000 * 2 ^ 0 ::
          (requestLoop { maxRetries := 1, baseDelay := 5000, backoff := 2 }
            (fun _ => FetchResult.resp 429 ("rate".toList)) 1 (0 + 1)).1,
        (requestLoop { maxRetries := 1, baseDelay := 5000, backoff := 2 }
          (fun _ => FetchResult.resp 429 ("rate".toList)) 1 (0 + 1)).2) ∧
    requestLoop { maxRetries := 1, baseDelay := 5000, backoff := 2 }
        (fun _ => FetchResult.resp 503 ("oops".toList)) (1 + 1) 0 =
      ([], ReqOut.failMsg (apiErrorMsg ("oops".toList))) :=
  ⟨(request_retry_only_429_or_500 _ _ 1 0 429 _ rfl (by decide)).1
      (Or.inl rfl) (by decide),
    (request_retry_only_429_or_500 _ _ 1 0 503 _ rfl (by decide)).2
      (by decide) (by decide)⟩

/-- C4 counterexample: a 400 response makes `recognize` fail immediately
(no retry), but the RateGate is NOT tripped: the catch block trips it only
when the error message mentions 429 or 500, and `API error: Bad Request`
mentions neither, so `throttleUntil` stays 0 instead of becoming
`catchNow + 5000`. -/
theorem nontransient_400_gate_not_tripped_cex :
    requestCall { maxRetries := 1, baseDelay := 5000, backoff := 2 }
        (fun _ => FetchResult.resp 400 ("Bad Request".toList)) =
      ([], ReqOut.failMsg ("API error: Bad Request".toList)) ∧
    (captureOnce true 0 7 0 (some ("data:image/jpeg;base64,AAAA".toList))
        (Except.error ("API error: Bad Request".toList)) []).2 = 0 ∧
    (0 : ℕ) ≠ RateGate.trip 7 5000 := by
  exact ⟨by decide, rfl, by decide⟩

/-- C4 (amended): a non-transient status (neither 429 nor exactly 500)
fails immediately with no retry and no backoff wait; in the capture
cycle's catch the RateGate is tripped — once, to `catchNow + 5000` — iff
the propagated error message contains `429` or `500`, and is left
unchanged otherwise. -/
theorem nontransient_fail_fast_gate_conditional :
    (∀ (cfg : RetryCfg) (resp : ℕ → FetchResult) (fuel attempt status : ℕ)
        (detail : List Char), resp attempt = FetchResult.resp status detail →
      respOk status = false → status ≠ 429 → status ≠ 500 →
      requestLoop cfg resp (fuel + 1) attempt =
        ([], ReqOut.failMsg (apiErrorMsg detail))) ∧
    (∀ (w : Bool) (now catchNow tu : ℕ) (d b64 m : List Char)
        (pats : List (List Char)),
      extractBase64 d = Except.ok b64 →
      (strIncludes m ("429".toList) || strIncludes m ("500".toList)) = false →
      (captureOnce w now catchNow tu (some d) (Except.error m) pats).2 = tu) ∧
    (∀ (w : Bool) (now catchNow tu : ℕ) (d b64 m : List Char)
        (pats : List (List Char)),
      extractBase64 d = Except.ok b64 →
      (strIncludes m ("429".toList) || strIncludes m ("500".toList)) = true →
      (captureOnce w now catchNow tu (some d) (Except.error m) pats).2 =
        RateGate.trip catchNow 5000) := by
  refine ⟨?_, ?_, ?_⟩
  · intro cfg resp fuel attempt status detail hr hok h1 h2
    exact requestLoop_fail_now cfg resp fuel attempt status detail hr hok h1 h2
  · intro w now catchNow tu d b64 m pats hex hm
    have hch : (catchHandler m catchNow tu).2 = tu := by
      unfold catchHandler
      rw [if_neg (by simpa using hm)]
    simp only [captureOnce, hex]
    exact hch
  · intro w now catchNow tu d b64 m pats hex hm
    have hch : (catchHandler m catchNow tu).2 = RateGate.trip catchNow 5000 := by
      unfold catchHandler
      rw [if_pos hm]
    simp only [captureOnce, hex]
    exact hch

/-- Witness for C4: a 400 first attempt fails at once under the shipped
config; in the cycle, `API error: Bad Request` leaves the gate at 0 while
`API error: 429 quota` trips it to `7 + 5000`. -/
theorem nontransient_fail_fast_gate_conditional_witness :
    requestLoop { maxRetries := 1, baseDelay := 5000, backoff := 2 }
        (fun _ => FetchResult.resp 400 ("Bad Request".toList)) (1 + 1) 0 =
      ([], ReqOut.failMsg (apiErrorMsg ("Bad Request".toList))) ∧
    (captureOnce true 0 7 0 (some ("data:image/jpeg;base64,AAAA".toList))
        (Except.error ("API error: Bad Request".toList)) []).2 = 0 ∧
    (captureOnce true 0 7 0 (some ("data:image/jpeg;base64,AAAA".toList))
        (Except.error ("API error: 429 quota".toList)) []).2 =
      RateGate.trip 7 5000 :=
  ⟨nontransient_fail_fast_gate_conditional.1 _ _ 1 0 400 _ rfl (by decide)
      (by decide) (by decide),
    nontransient_fail_fast_gate_conditional.2.1 true 0 7 0 _ ("AAAA".toList)
      _ [] (by decide) (by decide),
    nontransient_fail_fast_gate_conditional.2.2 true 0 7 0 _ ("AAAA".toList)
      _ [] (by decide) (by decide)⟩

/-- C5 counterexample: a Continuous-mode cycle whose recognition request
fails (it reports `OCR processing failed`) does NOT increment the
consecutive-error counter: `captureOnce` catches the error internally and
returns normally, so the loop resets the counter to 0 — like a success —
and pauses for the normal dynamic delay (3000 ms here), not
`1000 * counter`. -/
theorem continuous_failed_cycle_counter_cex :
    asyncStep 0 0 (LoopInput.run
        { now := 0
          catchNow := 7
          frame := some ("data:image/jpeg;base64,AAAA".toList)
          ocr := Except.error ("API error: Bad Request".toList)
          cfgNoText := []
          processingTime := 30000 }) =
      (0, 0, dynamicDelay 30000) ∧
    dynamicDelay 30000 = 3000 ∧
    Ev.statusError ErrStatus.ocrFailed ∈
      (captureOnce true 0 7 0 (some ("data:image/jpeg;base64,AAAA".toList))
        (Except.error ("API error: Bad Request".toList)) []).1 := by
  refine ⟨rfl, ?_, by decide⟩
  rw [dynamicDelay, max_eq_right (by norm_num)]
  norm_num

/-- C5 (amended): recognition failures never reach the loop's error
handler — every `captureOnce` run, successful or not, makes the loop reset
the counter to 0.  The claimed arithmetic governs only exceptions escaping
`captureOnce`: such a cycle increments the counter and the loop pauses
`1000 * counter` ms below the ceiling of 3; at the ceiling it pauses
5000 ms and resets the counter to 0. -/
theorem async_loop_error_backoff :
    (∀ (tu c : ℕ) (r : CycleRun),
      (asyncStep tu c (LoopInput.run r)).2.1 = 0) ∧
    (∀ tu c : ℕ, c + 1 < 3 →
      asyncStep tu c LoopInput.escape = (tu, c + 1, ((1000 * (c + 1) : ℕ) : ℚ))) ∧
    (∀ tu c : ℕ, 3 ≤ c + 1 →
      asyncStep tu c LoopInput.escape = (tu, 0, 5000)) := by
  refine ⟨fun tu c r => rfl, ?_, ?_⟩
  · intro tu c h
    simp only [asyncStep]
    rw [if_neg (by omega)]
  · intro tu c h
    simp only [asyncStep]
    rw [if_pos h]

/-- Witness for C5: one normal run resets the counter; escapes at
counters 1 and 2 pause 2000 ms and 5000 ms respectively. -/
theorem async_loop_error_backoff_witness :
    (asyncStep 0 5 (LoopInput.run
        { now := 0
          catchNow := 0
          frame := none
          ocr := Except.ok { text := [], usage := false }
          cfgNoText := []
          processingTime := 0 })).2.1 = 0 ∧
    asyncStep 5 1 LoopInput.escape = (5, 1 + 1, ((1000 * (1 + 1) : ℕ) : ℚ)) ∧
    asyncStep 5 2 LoopInput.escape = (5, 0, 5000) :=
  ⟨async_loop_error_backoff.1 0 5 _,
    async_loop_error_backoff.2.1 5 1 (by decide),
    async_loop_error_backoff.2.2 5 2 (by decide)⟩

/-- Witness for C2 at a blocked tick (`tu = 3000`, `now = 0`) with a
well-formed data URL. -/
theorem interval_blocked_tick_proceeds_witness :
    ((captureOnce false 0 0 3000 (some ("data:image/jpeg;base64,AAAA".toList))
        (Except.ok { text := "HI".toList, usage := false }) []).1.head? =
      some (Ev.statusThrottled (remainSecs (3000 - 0)))) ∧
    Ev.captureFrame ∈ (captureOnce false 0 0 3000
      (some ("data:image/jpeg;base64,AAAA".toList))
      (Except.ok { text := "HI".toList, usage := false }) []).1 ∧
    Ev.ocrRequest ∈ (captureOnce false 0 0 3000
      (some ("data:image/jpeg;base64,AAAA".toList))
      (Except.ok { text := "HI".toList, usage := false }) []).1 := by
  have h := interval_blocked_tick_proceeds 0 0 3000
    ("data:image/jpeg;base64,AAAA".toList)
    (Except.ok { text := "HI".toList, usage := false }) [] (by decide)
  exact ⟨h.1, h.2.2.1, h.2.2.2 ("AAAA".toList) (by decide)⟩

end WebcamOCR
